import Mathlib

/-!
Shallow embedding of `src/ConstraintBasedEventLogGenerator/src/entropies.py`
(repository `Pado123/Constrained_data_aug`).

Tables (pandas `DataFrame`s) are modelled as a list of column names plus a
list of rows, each row an association list from column name to cell value.
The pandas integer index is not modelled: the only index operations in the
source are `reset_index(drop=True)` (re-densifies the index) and the unused
`index` component of `iterrows()`, neither of which affects any observable
value of the functions under study.

Cell values are modelled by the inductive type `Value`: strings, integers,
parsed date-times (`dt`, an abstract instant), and the missing marker
(pandas `NaT`/`NaN`).

Floating point arithmetic is modelled exactly: probabilities are rationals
(each is `count / total` for machine-representable small integers in the
claims' instances) and the entropy value lives in `ℝ` with `Real.logb 10`
standing for `log10`.

Fallible Python code (a `KeyError` from `row[col]`, a `ZeroDivisionError`
from `count / total`) is modelled with `Except String`.
-/

inductive Value where
  | str : String → Value
  | int : Int → Value
  | dt : Int → Value
  | missing : Value
deriving DecidableEq, Repr

structure DataFrame where
  cols : List String
  rows : List (List (String × Value))
deriving DecidableEq, Repr

/-- A table is well formed when every row has exactly the table's columns,
in order (pandas maintains this: all rows of a `DataFrame` share one column
index). -/
def DataFrame.WF (df : DataFrame) : Prop :=
  ∀ r ∈ df.rows, r.map Prod.fst = df.cols

instance (df : DataFrame) : Decidable df.WF := by
  unfold DataFrame.WF; infer_instance

/-- `row[col]` on a pandas row (a `Series`): the value when the label is
present, a `KeyError` otherwise. -/
def lookupCell (r : List (String × Value)) (c : String) : Except String Value :=
  match r.lookup c with
  | some v => .ok v
  | none => .error ("KeyError: " ++ c)

/-- `df.rename(columns=m, errors='ignore')`: a column name found as a key of
`m` is replaced by its image, any other name is kept (missing rename targets
are tolerated silently). -/
def renameKey (m : List (String × String)) (k : String) : String :=
  match m.lookup k with
  | some k2 => k2
  | none => k

def DataFrame.renameCols (df : DataFrame) (m : List (String × String)) : DataFrame :=
  ⟨df.cols.map (renameKey m),
   df.rows.map (fun r => r.map (fun kv => (renameKey m kv.1, kv.2)))⟩

/-- `df[c] = df[c].map f`: apply `f` to every cell of column `c`. -/
def DataFrame.mapCol (df : DataFrame) (c : String) (f : Value → Value) : DataFrame :=
  ⟨df.cols,
   df.rows.map (fun r => r.map (fun kv => if kv.1 = c then (kv.1, f kv.2) else kv))⟩

/-- `pd.to_datetime(x, errors='coerce')` on one cell: an already-parsed
date-time is kept, a numeric value is interpreted as an instant, a string is
parsed by the (abstracted) pandas date-time grammar `parse` and becomes the
missing marker `NaT` when unparseable, and a missing value stays missing.
Coercion never raises. -/
def to_datetime_coerce (parse : String → Option Int) : Value → Value
  | .str s => match parse s with
    | some t => .dt t
    | none => .missing
  | .int n => .dt n
  | .dt t => .dt t
  | .missing => .missing

/-- The `for col in ['start:timestamp', 'time:timestamp']` loop of
`convert_and_clean`: each of the two timestamp columns that is present is
passed through `pd.to_datetime(..., errors='coerce')`. -/
def parse_timestamp_cols (parse : String → Option Int) (df : DataFrame) : DataFrame :=
  ["start:timestamp", "time:timestamp"].foldl
    (fun d col => if col ∈ d.cols then d.mapCol col (to_datetime_coerce parse) else d) df

/-- `convert_and_clean(df)` from `entropies.py`.

`convert_log` is the external lifecycle-to-interval collaborator
(`src.eventlog_utils.convert_log`), a parameter of the embedding; `parse` is
the pandas date-time string grammar. `reset_index(inplace=True, drop=True)`
is the identity in this model (the index is not modelled, see the header). -/
def convert_and_clean (convert_log : DataFrame → DataFrame)
    (parse : String → Option Int) (df : DataFrame) : DataFrame :=
  let df1 := if "lifecycle:transition" ∈ df.cols then
      (convert_log df).renameCols [("START", "start:timestamp"), ("END", "time:timestamp")]
    else df
  parse_timestamp_cols parse df1

/-- One symbol arriving at a `collections.Counter`: the entry is created at
the symbol's first occurrence and incremented at each later one. -/
def counterAdd (acc : List (Value × ℕ)) (x : Value) : List (Value × ℕ) :=
  if acc.any (fun p => p.1 = x) then
    acc.map (fun p => if p.1 = x then (p.1, p.2 + 1) else p)
  else acc ++ [(x, 1)]

/-- `collections.Counter` over a list, as the insertion-ordered association
list the Python dict maintains. -/
def counterList (xs : List Value) : List (Value × ℕ) :=
  xs.foldl counterAdd []

/-- `prob = [count / total for count in freq.values()]` of `compute_entropy`:
each count divided by the total symbol count. Every division checks its
divisor, as in Python where `count / 0` raises `ZeroDivisionError`. -/
def probList (all_symbols : List Value) : Except String (List ℚ) :=
  (counterList all_symbols).mapM
    (fun p =>
      if all_symbols.length = 0 then .error "ZeroDivisionError: division by zero"
      else .ok ((p.2 : ℚ) / (all_symbols.length : ℚ)))

/-- `scipy.stats.entropy(pk, base=10)`: `pk` is normalized by its sum and the
entropy `-Σ q log10 q` of the normalized vector is returned. On the empty
vector the sum is empty, giving `0`. (`Real.logb 10 0 = 0` matches scipy's
`entr`, which sends a zero probability to `0`; `compute_entropy` only ever
passes positive entries.) -/
noncomputable def scipy_entropy_base10 (pk : List ℚ) : ℝ :=
  -((pk.map (fun p => ((p / pk.sum : ℚ) : ℝ) * Real.logb 10 ((p / pk.sum : ℚ) : ℝ))).sum)

/-- `compute_entropy(sequences)` from `entropies.py`: flatten, count
frequencies, convert to probabilities, return the base-10 entropy. -/
noncomputable def compute_entropy (sequences : List (List Value)) : Except String ℝ := do
  let all_symbols := sequences.flatten
  let prob ← probList all_symbols
  .ok (scipy_entropy_base10 prob)

/-- `get_all_prefixes(sequences)` from `entropies.py`: the literal double
loop, accumulating `seq[:i]` for `i in range(1, len(seq) + 1)`. -/
def get_all_prefixes (sequences : List (List Value)) : List (List Value) :=
  sequences.foldl
    (fun all_prefixes seq =>
      (List.range seq.length).foldl (fun acc i => acc ++ [seq.take (i + 1)]) all_prefixes)
    []

/-- One iteration of the row loop of `cf_entropy_seq`:
`if case_id not in cases: cases[case_id] = []` then
`cases[case_id].append(activity)`, on the insertion-ordered dict `cases`
modelled as an association list. -/
def addRow (cases : List (Value × List Value)) (case_id activity : Value) :
    List (Value × List Value) :=
  if cases.any (fun p => p.1 = case_id) then
    cases.map (fun p => if p.1 = case_id then (p.1, p.2 ++ [activity]) else p)
  else cases ++ [(case_id, [activity])]

/-- The two column accesses of one iteration of the row loop of
`cf_entropy_seq`: `row[case_id_name]` is evaluated first, then
`row[activity_name]`; either raises a `KeyError` when its column is absent. -/
def pairOfRow (row : List (String × Value)) (case_id_name activity_name : String) :
    Except String (Value × Value) := do
  let case_id ← lookupCell row case_id_name
  let activity ← lookupCell row activity_name
  .ok (case_id, activity)

/-- The row scan of `cf_entropy_seq`: for each row, in table order, look up
the case identifier then the activity and extend the per-case mapping. -/
def buildCases (rows : List (List (String × Value))) (case_id_name activity_name : String) :
    Except String (List (Value × List Value)) :=
  rows.foldlM
    (fun cases row => (pairOfRow row case_id_name activity_name).map
      (fun p => addRow cases p.1 p.2))
    []

/-- The `(case identifier, activity)` pair of every row of the table, in
table order — the data the row loop of `cf_entropy_seq` consumes. -/
def rowPairs (rows : List (List (String × Value))) (case_id_name activity_name : String) :
    Except String (List (Value × Value)) :=
  rows.mapM (fun row => pairOfRow row case_id_name activity_name)

/-- The row loop of `cf_entropy_seq` on already-extracted
`(case identifier, activity)` pairs. -/
def buildCasesPure (pairs : List (Value × Value)) : List (Value × List Value) :=
  pairs.foldl (fun cases p => addRow cases p.1 p.2) []

/-- The collection of sequences `cf_entropy_seq` computes entropy over:
`list(cases.values())`, expanded to all prefixes when `pfx` is set. -/
def cfSequences (log : DataFrame) (pfx : Bool) (activity_name case_id_name : String) :
    Except String (List (List Value)) := do
  let cases ← buildCases log.rows case_id_name activity_name
  .ok (if pfx then get_all_prefixes (cases.map Prod.snd) else cases.map Prod.snd)

/-- `cf_entropy_seq(log, prefix, activity_name, case_id_name,
return_sequence_count)` from `entropies.py`. The result's second component
is `some (len(sequences))` exactly when `return_sequence_count` is set,
modelling the `(entropy_value, len(sequences))` tuple vs. bare
`entropy_value` return. -/
noncomputable def cf_entropy_seq (log : DataFrame) (pfx : Bool)
    (activity_name case_id_name : String) (return_sequence_count : Bool) :
    Except String (ℝ × Option ℕ) := do
  let sequences ← cfSequences log pfx activity_name case_id_name
  let entropy_value ← compute_entropy sequences
  if return_sequence_count then .ok (entropy_value, some sequences.length)
  else .ok (entropy_value, none)

/-! Specification-side notions, used to state the claims. They are written
from the spec's words, not from the source, and are compared with the
source-derived definitions above by the theorems below. -/

/-- Append a value to an accumulator unless already present. -/
def fsInsert (acc : List Value) (x : Value) : List Value :=
  if x ∈ acc then acc else acc ++ [x]

/-- The distinct values of a list, in order of first occurrence — the
insertion order of keys of a Python dict built by a top-to-bottom scan. -/
def firstSeen (xs : List Value) : List Value :=
  xs.foldl fsInsert []

/-- A cell value that is a parsed date-time or the missing marker — never a
raw unparsed string or other raw value. -/
def parsedOrMissing : Value → Bool
  | .dt _ => true
  | .missing => true
  | _ => false

/-- The trace of case `k` as the spec describes it: the activities of the
rows whose case identifier is `k`, in row encounter order. -/
def caseTrace (pairs : List (Value × Value)) (k : Value) : List Value :=
  (pairs.filter (fun p => p.1 = k)).map Prod.snd

/-! ### Helper lemmas: accumulating folds -/

lemma foldl_push {α β : Type} (f : β → α) :
    ∀ (l : List β) (acc : List α),
      l.foldl (fun acc b => acc ++ [f b]) acc = acc ++ l.map f := by
  intro l
  induction l with
  | nil => intro acc; simp
  | cons b t ih => intro acc; simp [ih]

lemma foldl_append_flatten {α β : Type} (g : β → List α) :
    ∀ (l : List β) (acc : List α),
      l.foldl (fun A s => A ++ g s) acc = acc ++ (l.map g).flatten := by
  intro l
  induction l with
  | nil => intro acc; simp
  | cons b t ih => intro acc; simp [ih]

lemma get_all_prefixes_eq (seqs : List (List Value)) :
    get_all_prefixes seqs =
      (seqs.map (fun s => (List.range s.length).map (fun i => s.take (i + 1)))).flatten := by
  unfold get_all_prefixes
  simp only [foldl_push]
  simpa using foldl_append_flatten
    (fun s : List Value => (List.range s.length).map (fun i => s.take (i + 1))) seqs []

lemma get_all_prefixes_length (seqs : List (List Value)) :
    (get_all_prefixes seqs).length = (seqs.map List.length).sum := by
  rw [get_all_prefixes_eq, List.length_flatten, List.map_map]
  congr 1
  apply List.map_congr_left
  intro s _
  simp

/-! ### Helper lemmas: behavior on an empty table -/

lemma cf_entropy_seq_empty (df : DataFrame) (pfx : Bool) (act cid : String)
    (rsc : Bool) (h : df.rows = []) :
    cf_entropy_seq df pfx act cid rsc = .ok (0, if rsc then some 0 else none) := by
  cases pfx <;> cases rsc <;>
    simp [cf_entropy_seq, cfSequences, buildCases, compute_entropy, probList,
      counterList, get_all_prefixes, scipy_entropy_base10, h, pure, Except.pure,
      bind, Except.bind, List.mapM, List.mapM.loop]

/-! ### Helper lemmas: first-seen order -/

lemma mem_fsInsert (x a : Value) (acc : List Value) :
    x ∈ fsInsert acc a ↔ x ∈ acc ∨ x = a := by
  unfold fsInsert
  split
  · rename_i h
    constructor
    · exact Or.inl
    · rintro (hx | rfl)
      · exact hx
      · exact h
  · simp [List.mem_append]

lemma mem_foldl_fsInsert (x : Value) :
    ∀ (l : List Value) (acc : List Value),
      x ∈ l.foldl fsInsert acc ↔ x ∈ acc ∨ x ∈ l := by
  intro l
  induction l with
  | nil => intro acc; simp
  | cons a t ih =>
    intro acc
    rw [List.foldl_cons, ih, mem_fsInsert]
    simp [or_assoc]

lemma mem_firstSeen (x : Value) (xs : List Value) : x ∈ firstSeen xs ↔ x ∈ xs := by
  simpa using mem_foldl_fsInsert x xs []

lemma firstSeen_append (xs : List Value) (x : Value) :
    firstSeen (xs ++ [x]) = fsInsert (firstSeen xs) x := by
  simp [firstSeen, List.foldl_append]

lemma nodup_foldl_fsInsert :
    ∀ (l : List Value) (acc : List Value), acc.Nodup → (l.foldl fsInsert acc).Nodup := by
  intro l
  induction l with
  | nil => intro acc h; simpa using h
  | cons a t ih =>
    intro acc h
    rw [List.foldl_cons]
    apply ih
    unfold fsInsert
    split
    · exact h
    · rename_i ha
      rw [List.nodup_append]
      refine ⟨h, List.nodup_singleton a, ?_⟩
      intro b hb hba
      rw [List.mem_singleton] at hba
      exact ha (hba ▸ hb)

lemma nodup_firstSeen (xs : List Value) : (firstSeen xs).Nodup :=
  nodup_foldl_fsInsert xs [] List.nodup_nil

lemma toFinset_firstSeen (xs : List Value) : (firstSeen xs).toFinset = xs.toFinset := by
  ext a
  simp [List.mem_toFinset, mem_firstSeen]

lemma length_firstSeen (xs : List Value) : (firstSeen xs).length = xs.toFinset.card := by
  rw [← toFinset_firstSeen, List.toFinset_card_of_nodup (nodup_firstSeen xs)]

lemma firstSeen_perm_dedup (xs : List Value) : (firstSeen xs).Perm xs.dedup := by
  apply List.perm_of_nodup_nodup_toFinset_eq (nodup_firstSeen xs) (List.nodup_dedup xs)
  rw [toFinset_firstSeen]
  ext a
  simp [List.mem_toFinset, List.mem_dedup]

lemma sum_counts_firstSeen (xs : List Value) :
    ((firstSeen xs).map (fun k => xs.count k)).sum = xs.length := by
  rw [List.Perm.sum_eq (List.Perm.map _ (firstSeen_perm_dedup xs))]
  exact List.sum_map_count_dedup_eq_length xs

/-! ### Helper lemmas: the Counter's closed form -/

lemma any_fst_eq {β : Type} (l : List Value) (f : Value → β) (x : Value) :
    ((l.map (fun k => (k, f k))).any (fun p => p.1 = x)) = decide (x ∈ l) := by
  induction l with
  | nil => simp
  | cons a t ih =>
    simp only [List.map_cons, List.any_cons, ih, List.mem_cons]
    by_cases h : a = x
    · subst h; simp
    · by_cases h2 : x ∈ t
      · simp [h, h2]
      · simp [h, h2]
        exact fun hxa => h hxa.symm

lemma counterList_append (xs : List Value) (x : Value) :
    counterList (xs ++ [x]) = counterAdd (counterList xs) x := by
  simp [counterList, List.foldl_append]

/-- `Counter(xs)` lists the distinct symbols in first-occurrence order, each
with its number of occurrences. -/
lemma counterList_closed (xs : List Value) :
    counterList xs = (firstSeen xs).map (fun k => (k, xs.count k)) := by
  induction xs using List.reverseRecOn with
  | nil => rfl
  | append_singleton xs x ih =>
    rw [counterList_append, ih, firstSeen_append]
    unfold counterAdd fsInsert
    rw [any_fst_eq]
    by_cases hx : x ∈ xs
    · have hfs : x ∈ firstSeen xs := (mem_firstSeen x xs).mpr hx
      rw [if_pos (by simp [hfs]), if_pos hfs, List.map_map]
      apply List.map_congr_left
      intro k hk
      simp only [Function.comp_apply]
      by_cases hkx : k = x
      · subst hkx
        simp [List.count_append, List.count_singleton']
      · simp [hkx, List.count_append, List.count_singleton', fun h : x = k => hkx h.symm]
    · have hfs : x ∉ firstSeen xs := fun h => hx ((mem_firstSeen x xs).mp h)
      rw [if_neg (by simp [hfs]), if_neg hfs, List.map_append, List.map_cons, List.map_nil]
      congr 1
      · apply List.map_congr_left
        intro k hk
        have hkxs : k ∈ xs := (mem_firstSeen k xs).mp hk
        have hkx : x ≠ k := fun h => hx (h ▸ hkxs)
        simp [List.count_append, List.count_singleton', hkx]
      · simp [List.count_append, List.count_singleton', List.count_eq_zero.mpr hx]

lemma counterList_length (xs : List Value) :
    (counterList xs).length = xs.toFinset.card := by
  rw [counterList_closed, List.length_map, length_firstSeen]

lemma counterList_count_pos (xs : List Value) :
    ∀ p ∈ counterList xs, 0 < p.2 := by
  rw [counterList_closed]
  intro p hp
  rcases List.mem_map.mp hp with ⟨k, hk, rfl⟩
  exact List.count_pos_iff.mpr ((mem_firstSeen k xs).mp hk)

lemma counterList_sum_counts (xs : List Value) :
    ((counterList xs).map Prod.snd).sum = xs.length := by
  rw [counterList_closed, List.map_map]
  simpa using sum_counts_firstSeen xs

/-! ### Helper lemmas: the per-case mapping's closed form -/

lemma buildCasesPure_append (ps : List (Value × Value)) (p : Value × Value) :
    buildCasesPure (ps ++ [p]) = addRow (buildCasesPure ps) p.1 p.2 := by
  simp [buildCasesPure, List.foldl_append]

/-- The per-case mapping built by the row loop: the case identifiers in
first-encounter order, each carrying its trace in row order. -/
lemma buildCasesPure_closed (ps : List (Value × Value)) :
    buildCasesPure ps =
      (firstSeen (ps.map Prod.fst)).map (fun k => (k, caseTrace ps k)) := by
  induction ps using List.reverseRecOn with
  | nil => rfl
  | append_singleton ps p ih =>
    rw [buildCasesPure_append, ih]
    have hmap : (ps ++ [p]).map Prod.fst = ps.map Prod.fst ++ [p.1] := by simp
    rw [hmap, firstSeen_append]
    unfold addRow fsInsert
    rw [any_fst_eq]
    by_cases hx : p.1 ∈ ps.map Prod.fst
    · have hfs : p.1 ∈ firstSeen (ps.map Prod.fst) := (mem_firstSeen _ _).mpr hx
      rw [if_pos (by simp [hfs]), if_pos hfs, List.map_map]
      apply List.map_congr_left
      intro k hk
      simp only [Function.comp_apply]
      by_cases hkx : k = p.1
      · subst hkx
        simp [caseTrace, List.filter_append]
      · have hneq : ¬(p.1 = k) := fun h => hkx h.symm
        simp [hkx, caseTrace, List.filter_append, hneq]
    · have hfs : p.1 ∉ firstSeen (ps.map Prod.fst) := fun h => hx ((mem_firstSeen _ _).mp h)
      rw [if_neg (by simp [hfs]), if_neg hfs, List.map_append, List.map_cons, List.map_nil]
      congr 1
      · apply List.map_congr_left
        intro k hk
        have hkxs : k ∈ ps.map Prod.fst := (mem_firstSeen _ _).mp hk
        have hneq : ¬(p.1 = k) := fun h => hx (h ▸ hkxs)
        simp [caseTrace, List.filter_append, hneq]
      · have hnil : ps.filter (fun q => q.1 = p.1) = [] := by
          rw [List.filter_eq_nil_iff]
          intro a ha
          simp only [decide_eq_true_eq]
          exact fun h => hx (List.mem_map.mpr ⟨a, ha, h⟩)
        simp [caseTrace, List.filter_append, hnil]

lemma except_bind_ok {α β : Type} (a : α) (f : α → Except String β) :
    (Except.ok a >>= f) = f a := rfl

lemma except_bind_error {α β : Type} (e : String) (f : α → Except String β) :
    ((Except.error e : Except String α) >>= f) = Except.error e := rfl

lemma except_map_ok {α β : Type} (f : α → β) (a : α) :
    Except.map f (Except.ok a : Except String α) = Except.ok (f a) := rfl

lemma except_map_error {α β : Type} (f : α → β) (e : String) :
    Except.map f (Except.error e : Except String α) = Except.error e := rfl

lemma buildCases_foldlM :
    ∀ (rows : List (List (String × Value))) (cid act : String)
      (acc : List (Value × List Value)),
      rows.foldlM
        (fun cases row => (pairOfRow row cid act).map (fun p => addRow cases p.1 p.2)) acc
      = (rows.mapM (fun row => pairOfRow row cid act)).map
          (fun ps => ps.foldl (fun cs p => addRow cs p.1 p.2) acc) := by
  intro rows
  induction rows with
  | nil =>
    intro cid act acc
    rw [List.foldlM_nil, List.mapM_nil]
    rfl
  | cons r t ih =>
    intro cid act acc
    rw [List.foldlM_cons, List.mapM_cons]
    cases hp : pairOfRow r cid act with
    | error e =>
      simp only [hp, Except.map, except_bind_error]
    | ok p =>
      simp only [hp, except_map_ok, except_bind_ok]
      rw [ih cid act (addRow acc p.1 p.2)]
      cases ht : t.mapM (fun row => pairOfRow row cid act) with
      | error e => simp only [ht, except_map_error, except_bind_error]
      | ok ps =>
        simp only [ht, except_map_ok, except_bind_ok]
        rfl

lemma buildCases_map (rows : List (List (String × Value))) (cid act : String) :
    buildCases rows cid act = (rowPairs rows cid act).map buildCasesPure := by
  rw [buildCases, rowPairs, buildCases_foldlM]
  rfl


/-! ### Helper lemmas: the probability list and entropy never fail -/

lemma mapM_ok {α β : Type} (g : α → β) :
    ∀ l : List α, l.mapM (fun a => (Except.ok (g a) : Except String β)) = .ok (l.map g) := by
  intro l
  induction l with
  | nil => rw [List.mapM_nil]; rfl
  | cons a t ih => rw [List.mapM_cons, ih]; rfl

lemma probList_ok (xs : List Value) :
    probList xs = .ok ((counterList xs).map (fun p => (p.2 : ℚ) / (xs.length : ℚ))) := by
  by_cases h : xs = []
  · subst h; rfl
  · have hne : xs.length ≠ 0 := fun hl => h (List.length_eq_zero.mp hl)
    unfold probList
    have hfn : (fun p : Value × ℕ =>
        if xs.length = 0 then (Except.error "ZeroDivisionError: division by zero" : Except String ℚ)
        else .ok ((p.2 : ℚ) / (xs.length : ℚ)))
        = (fun p : Value × ℕ => Except.ok ((p.2 : ℚ) / (xs.length : ℚ))) := by
      funext p
      rw [if_neg hne]
    rw [hfn, mapM_ok]

lemma compute_entropy_ok (seqs : List (List Value)) :
    compute_entropy seqs = .ok (scipy_entropy_base10
      ((counterList seqs.flatten).map (fun p => (p.2 : ℚ) / (seqs.flatten.length : ℚ)))) := by
  simp only [compute_entropy, probList_ok]
  rfl

/-! ### Helper lemmas: the sequence collection and its size -/

lemma cfSequences_of_pairs (log : DataFrame) (pfx : Bool) (act cid : String)
    (ps : List (Value × Value)) (hp : rowPairs log.rows cid act = .ok ps) :
    cfSequences log pfx act cid =
      .ok (if pfx then get_all_prefixes ((buildCasesPure ps).map Prod.snd)
           else (buildCasesPure ps).map Prod.snd) := by
  unfold cfSequences
  rw [buildCases_map, hp]
  rfl

lemma cf_entropy_seq_of_sequences (log : DataFrame) (pfx : Bool) (act cid : String)
    (seqs : List (List Value)) (hs : cfSequences log pfx act cid = .ok seqs) :
    cf_entropy_seq log pfx act cid true =
      .ok (scipy_entropy_base10
        ((counterList seqs.flatten).map (fun p => (p.2 : ℚ) / (seqs.flatten.length : ℚ))),
        some seqs.length) := by
  unfold cf_entropy_seq
  rw [hs, except_bind_ok, compute_entropy_ok, except_bind_ok]
  rfl

lemma mapM_ok_length {α β : Type} (f : α → Except String β) :
    ∀ (l : List α) (bs : List β), l.mapM f = .ok bs → bs.length = l.length := by
  intro l
  induction l with
  | nil =>
    intro bs h
    rw [List.mapM_nil] at h
    cases h
    rfl
  | cons a t ih =>
    intro bs h
    rw [List.mapM_cons] at h
    cases ha : f a with
    | error e => rw [ha, except_bind_error] at h; cases h
    | ok b =>
      rw [ha, except_bind_ok] at h
      cases ht : t.mapM f with
      | error e => rw [ht, except_bind_error] at h; cases h
      | ok ts =>
        rw [ht, except_bind_ok] at h
        cases h
        simp [ih ts ht]

lemma caseTrace_length (ps : List (Value × Value)) (k : Value) :
    (caseTrace ps k).length = List.count k (ps.map Prod.fst) := by
  unfold caseTrace
  rw [List.length_map, ← List.countP_eq_length_filter]
  show ps.countP (fun p => decide (p.1 = k)) = (ps.map Prod.fst).countP (fun x => x == k)
  rw [List.countP_map]
  apply List.countP_congr
  intro p _
  simp [Function.comp, beq_iff_eq]

lemma traces_sum_length (ps : List (Value × Value)) :
    (((buildCasesPure ps).map Prod.snd).map List.length).sum = ps.length := by
  rw [buildCasesPure_closed, List.map_map, List.map_map]
  simp only [Function.comp_def, caseTrace_length]
  have h := sum_counts_firstSeen (ps.map Prod.fst)
  simpa using h

lemma cases_length (ps : List (Value × Value)) :
    ((buildCasesPure ps).map Prod.snd).length = (ps.map Prod.fst).toFinset.card := by
  rw [buildCasesPure_closed, List.map_map, List.length_map, length_firstSeen]

/-! ### Helper lemmas: entropy of an equiprobable population -/

lemma scipy_entropy_replicate (k : ℕ) (hk : 0 < k) :
    scipy_entropy_base10 (List.replicate k ((1 : ℚ)/k)) = Real.logb 10 k := by
  have hkne : (k : ℚ) ≠ 0 := Nat.cast_ne_zero.mpr (Nat.pos_iff_ne_zero.mp hk)
  unfold scipy_entropy_base10
  rw [List.sum_replicate]
  have hsum : (k • ((1 : ℚ)/k)) = 1 := by
    rw [nsmul_eq_mul]
    field_simp
  rw [hsum, List.map_replicate, List.sum_replicate, div_one, nsmul_eq_mul]
  push_cast
  rw [one_div, Real.logb_inv]
  have hkR : (k : ℝ) ≠ 0 := Nat.cast_ne_zero.mpr (Nat.pos_iff_ne_zero.mp hk)
  field_simp

lemma compute_entropy_equiprob (seqs : List (List Value)) (k m : ℕ)
    (hk : 0 < k)
    (hcard : seqs.flatten.toFinset.card = k)
    (hcount : ∀ x ∈ seqs.flatten, List.count x seqs.flatten = m) :
    compute_entropy seqs = .ok (Real.logb 10 k) := by
  rw [compute_entropy_ok]
  have hFSlen : (firstSeen seqs.flatten).length = k := by
    rw [length_firstSeen, hcard]
  have hFScount : ∀ j ∈ firstSeen seqs.flatten, List.count j seqs.flatten = m := by
    intro j hj
    exact hcount j ((mem_firstSeen j seqs.flatten).mp hj)
  have hm : 0 < m := by
    have hne : firstSeen seqs.flatten ≠ [] := by
      intro hnil
      rw [hnil] at hFSlen
      exact absurd hFSlen.symm (Nat.pos_iff_ne_zero.mp hk)
    obtain ⟨j, hj⟩ := List.exists_mem_of_ne_nil _ hne
    have := List.count_pos_iff.mpr ((mem_firstSeen j seqs.flatten).mp hj)
    rw [hFScount j hj] at this
    exact this
  have hlen : seqs.flatten.length = k * m := by
    rw [← sum_counts_firstSeen seqs.flatten]
    rw [List.map_congr_left (fun j hj => hFScount j hj), List.map_const', List.sum_replicate,
      hFSlen, smul_eq_mul]
  have hmQ : (m : ℚ) ≠ 0 := Nat.cast_ne_zero.mpr (Nat.pos_iff_ne_zero.mp hm)
  have hkQ : (k : ℚ) ≠ 0 := Nat.cast_ne_zero.mpr (Nat.pos_iff_ne_zero.mp hk)
  have hprobs : (counterList seqs.flatten).map
      (fun p => (p.2 : ℚ) / (seqs.flatten.length : ℚ)) = List.replicate k ((1 : ℚ)/k) := by
    rw [counterList_closed, List.map_map]
    have hpt : ∀ j ∈ firstSeen seqs.flatten,
        ((fun p : Value × ℕ => (p.2 : ℚ) / (seqs.flatten.length : ℚ)) ∘
          (fun j => (j, seqs.flatten.count j))) j = (1 : ℚ)/k := by
      intro j hj
      simp only [Function.comp_apply]
      rw [hFScount j hj, hlen]
      push_cast
      field_simp
      ring
    rw [List.map_congr_left hpt, List.map_const', hFSlen]
  rw [hprobs, scipy_entropy_replicate k hk]

/-! ### Helper lemmas: KeyError propagation -/

lemma lookup_none_iff (c : String) :
    ∀ r : List (String × Value), r.lookup c = none ↔ c ∉ r.map Prod.fst := by
  intro r
  induction r with
  | nil => simp
  | cons kv t ih =>
    obtain ⟨k, v⟩ := kv
    by_cases hk : c = k
    · subst hk
      simp [List.lookup]
    · have hbeq : (c == k) = false := beq_eq_false_iff_ne.mpr hk
      simp only [List.lookup, hbeq, List.map_cons, List.mem_cons]
      rw [ih, not_or]
      simp [hk]

lemma lookupCell_not_mem (r : List (String × Value)) (c : String)
    (h : c ∉ r.map Prod.fst) : lookupCell r c = .error ("KeyError: " ++ c) := by
  unfold lookupCell
  rw [(lookup_none_iff c r).mpr h]

lemma lookupCell_mem (r : List (String × Value)) (c : String)
    (h : c ∈ r.map Prod.fst) : ∃ v, lookupCell r c = .ok v := by
  unfold lookupCell
  cases hl : r.lookup c with
  | none => exact absurd ((lookup_none_iff c r).mp hl) (fun hn => hn h)
  | some v => exact ⟨v, rfl⟩

lemma pairOfRow_cid_missing (r : List (String × Value)) (cid act : String)
    (h : cid ∉ r.map Prod.fst) :
    pairOfRow r cid act = .error ("KeyError: " ++ cid) := by
  unfold pairOfRow
  rw [lookupCell_not_mem r cid h, except_bind_error]

lemma pairOfRow_act_missing (r : List (String × Value)) (cid act : String)
    (hcid : cid ∈ r.map Prod.fst) (hact : act ∉ r.map Prod.fst) :
    pairOfRow r cid act = .error ("KeyError: " ++ act) := by
  unfold pairOfRow
  obtain ⟨v, hv⟩ := lookupCell_mem r cid hcid
  rw [hv, except_bind_ok, lookupCell_not_mem r act hact, except_bind_error]

lemma buildCases_cons_error (r : List (String × Value))
    (rest : List (List (String × Value))) (cid act : String) (e : String)
    (hp : pairOfRow r cid act = .error e) :
    buildCases (r :: rest) cid act = .error e := by
  unfold buildCases
  rw [List.foldlM_cons, hp, except_map_error, except_bind_error]

lemma cf_entropy_seq_error (log : DataFrame) (pfx : Bool) (act cid : String)
    (rsc : Bool) (e : String) (hs : buildCases log.rows cid act = .error e) :
    cf_entropy_seq log pfx act cid rsc = .error e := by
  unfold cf_entropy_seq cfSequences
  rw [hs, except_bind_error, except_bind_error]

/-! ### Helper lemmas: columns and well-formedness under the normalizer -/

lemma mapCol_cols (df : DataFrame) (c : String) (f : Value → Value) :
    (df.mapCol c f).cols = df.cols := rfl

lemma cell_key (c : String) (f : Value → Value) (kv : String × Value) :
    ((if kv.1 = c then (kv.1, f kv.2) else kv) : String × Value).1 = kv.1 := by
  split <;> rfl

lemma mapCol_WF (df : DataFrame) (c : String) (f : Value → Value) (h : df.WF) :
    (df.mapCol c f).WF := by
  intro r hr
  rcases List.mem_map.mp hr with ⟨r0, hr0, rfl⟩
  rw [List.map_map]
  have hfst : (Prod.fst ∘ fun kv : String × Value => if kv.1 = c then (kv.1, f kv.2) else kv)
      = Prod.fst := by
    funext kv
    exact cell_key c f kv
  rw [hfst]
  exact h r0 hr0

lemma renameCols_WF (df : DataFrame) (m : List (String × String)) (h : df.WF) :
    (df.renameCols m).WF := by
  intro r hr
  rcases List.mem_map.mp hr with ⟨r0, hr0, rfl⟩
  show (r0.map _).map Prod.fst = (df.cols.map (renameKey m))
  rw [List.map_map, ← h r0 hr0, List.map_map]
  rfl

lemma ptc_eq (parse : String → Option Int) (d : DataFrame) :
    parse_timestamp_cols parse d =
      (if "time:timestamp" ∈ d.cols then
        ((if "start:timestamp" ∈ d.cols then
            d.mapCol "start:timestamp" (to_datetime_coerce parse) else d).mapCol
          "time:timestamp" (to_datetime_coerce parse))
       else
        (if "start:timestamp" ∈ d.cols then
            d.mapCol "start:timestamp" (to_datetime_coerce parse) else d)) := by
  unfold parse_timestamp_cols
  rw [List.foldl_cons, List.foldl_cons, List.foldl_nil]
  by_cases h1 : "start:timestamp" ∈ d.cols <;> simp [h1, mapCol_cols]

lemma ptc_cols (parse : String → Option Int) (d : DataFrame) :
    (parse_timestamp_cols parse d).cols = d.cols := by
  rw [ptc_eq]
  by_cases h1 : "start:timestamp" ∈ d.cols <;>
    by_cases h2 : "time:timestamp" ∈ d.cols <;>
      simp [h1, h2, mapCol_cols]

lemma ptc_WF (parse : String → Option Int) (d : DataFrame) (h : d.WF) :
    (parse_timestamp_cols parse d).WF := by
  rw [ptc_eq]
  by_cases h1 : "start:timestamp" ∈ d.cols <;>
    by_cases h2 : "time:timestamp" ∈ d.cols <;>
      simp only [h1, h2, if_true, if_false] <;>
        first
          | exact mapCol_WF _ _ _ (mapCol_WF _ _ _ h)
          | exact mapCol_WF _ _ _ h
          | exact h

lemma tdc_parsed (parse : String → Option Int) (v : Value) :
    parsedOrMissing (to_datetime_coerce parse v) = true := by
  cases v with
  | str s => cases hps : parse s <;> simp [to_datetime_coerce, parsedOrMissing, hps]
  | int n => rfl
  | dt t => rfl
  | missing => rfl

lemma tdc_idem (parse : String → Option Int) (v : Value) :
    to_datetime_coerce parse (to_datetime_coerce parse v) = to_datetime_coerce parse v := by
  cases v with
  | str s => cases hps : parse s <;> simp [to_datetime_coerce, hps]
  | int n => rfl
  | dt t => rfl
  | missing => rfl

/-! ### Helper lemmas: timestamp columns hold only parsed or missing values -/

lemma mapCol_parsed (df : DataFrame) (c : String) (parse : String → Option Int) :
    ∀ r ∈ (df.mapCol c (to_datetime_coerce parse)).rows, ∀ kv ∈ r,
      kv.1 = c → parsedOrMissing kv.2 = true := by
  intro r hr kv hkv hk
  rcases List.mem_map.mp hr with ⟨r0, hr0, rfl⟩
  rcases List.mem_map.mp hkv with ⟨kv0, hkv0, rfl⟩
  by_cases h : kv0.1 = c
  · rw [if_pos h]
    exact tdc_parsed parse kv0.2
  · rw [if_neg h] at hk
    exact absurd hk h

lemma mapCol_parsed_preserved (df : DataFrame) (c c' : String)
    (parse : String → Option Int)
    (h : ∀ r ∈ df.rows, ∀ kv ∈ r, kv.1 = c → parsedOrMissing kv.2 = true) :
    ∀ r ∈ (df.mapCol c' (to_datetime_coerce parse)).rows, ∀ kv ∈ r,
      kv.1 = c → parsedOrMissing kv.2 = true := by
  intro r hr kv hkv hk
  rcases List.mem_map.mp hr with ⟨r0, hr0, rfl⟩
  rcases List.mem_map.mp hkv with ⟨kv0, hkv0, rfl⟩
  by_cases hc : kv0.1 = c'
  · rw [if_pos hc]
    exact tdc_parsed parse kv0.2
  · rw [if_neg hc] at hk ⊢
    exact h r0 hr0 kv0 hkv0 hk

lemma wf_no_col (d : DataFrame) (c : String) (hwf : d.WF) (hc : c ∉ d.cols) :
    ∀ r ∈ d.rows, ∀ kv ∈ r, kv.1 = c → parsedOrMissing kv.2 = true := by
  intro r hr kv hkv hk
  exfalso
  apply hc
  rw [← hwf r hr]
  exact hk ▸ List.mem_map.mpr ⟨kv, hkv, rfl⟩

lemma ptc_parsed (parse : String → Option Int) (d : DataFrame) (hwf : d.WF) :
    ∀ r ∈ (parse_timestamp_cols parse d).rows, ∀ kv ∈ r,
      (kv.1 = "start:timestamp" ∨ kv.1 = "time:timestamp") →
        parsedOrMissing kv.2 = true := by
  intro r hr kv hkv hor
  rw [ptc_eq] at hr
  by_cases h1 : "start:timestamp" ∈ d.cols <;>
    by_cases h2 : "time:timestamp" ∈ d.cols
  · rw [if_pos h2, if_pos h1] at hr
    rcases hor with hs | ht
    · exact mapCol_parsed_preserved _ _ _ parse (mapCol_parsed d _ parse) r hr kv hkv hs
    · exact mapCol_parsed _ _ parse r hr kv hkv ht
  · rw [if_neg h2, if_pos h1] at hr
    rcases hor with hs | ht
    · exact mapCol_parsed d _ parse r hr kv hkv hs
    · exact wf_no_col _ _ (mapCol_WF _ _ _ hwf) h2 r hr kv hkv ht
  · rw [if_pos h2, if_neg h1] at hr
    rcases hor with hs | ht
    · exact wf_no_col _ _ (mapCol_WF _ _ _ hwf) h1 r hr kv hkv hs
    · exact mapCol_parsed d _ parse r hr kv hkv ht
  · rw [if_neg h2, if_neg h1] at hr
    rcases hor with hs | ht
    · exact wf_no_col _ _ hwf h1 r hr kv hkv hs
    · exact wf_no_col _ _ hwf h2 r hr kv hkv ht

/-! ### Helper lemmas: a second to-datetime pass changes nothing -/

lemma cstep_idem (c : String) (parse : String → Option Int) (kv : String × Value) :
    (fun kv : String × Value =>
      if kv.1 = c then (kv.1, to_datetime_coerce parse kv.2) else kv)
      ((fun kv : String × Value =>
        if kv.1 = c then (kv.1, to_datetime_coerce parse kv.2) else kv) kv)
    = (fun kv : String × Value =>
        if kv.1 = c then (kv.1, to_datetime_coerce parse kv.2) else kv) kv := by
  by_cases h : kv.1 = c
  · simp [h, tdc_idem]
  · simp [h]

lemma cstep_comm (c c' : String) (hne : c ≠ c') (parse : String → Option Int)
    (kv : String × Value) :
    (fun kv : String × Value =>
      if kv.1 = c then (kv.1, to_datetime_coerce parse kv.2) else kv)
      ((fun kv : String × Value =>
        if kv.1 = c' then (kv.1, to_datetime_coerce parse kv.2) else kv) kv)
    = (fun kv : String × Value =>
        if kv.1 = c' then (kv.1, to_datetime_coerce parse kv.2) else kv)
      ((fun kv : String × Value =>
        if kv.1 = c then (kv.1, to_datetime_coerce parse kv.2) else kv) kv) := by
  by_cases h1 : kv.1 = c <;> by_cases h2 : kv.1 = c'
  · exact absurd (h1 ▸ h2) hne
  · simp [h1, h2, hne]
  · simp [h1, h2, Ne.symm hne]
  · simp [h1, h2]

lemma mapCol_tdc_idem (d : DataFrame) (c : String) (parse : String → Option Int) :
    (d.mapCol c (to_datetime_coerce parse)).mapCol c (to_datetime_coerce parse)
      = d.mapCol c (to_datetime_coerce parse) := by
  unfold DataFrame.mapCol
  simp only [List.map_map]
  congr 1
  apply List.map_congr_left
  intro r _
  simp only [Function.comp_apply]
  rw [List.map_map]
  apply List.map_congr_left
  intro kv _
  simp only [Function.comp_apply]
  exact cstep_idem c parse kv

lemma mapCol_tdc_comm (d : DataFrame) (c c' : String) (hne : c ≠ c')
    (parse : String → Option Int) :
    (d.mapCol c' (to_datetime_coerce parse)).mapCol c (to_datetime_coerce parse)
      = (d.mapCol c (to_datetime_coerce parse)).mapCol c' (to_datetime_coerce parse) := by
  unfold DataFrame.mapCol
  simp only [List.map_map]
  congr 1
  apply List.map_congr_left
  intro r _
  simp only [Function.comp_apply]
  rw [List.map_map, List.map_map]
  apply List.map_congr_left
  intro kv _
  simp only [Function.comp_apply]
  exact cstep_comm c c' hne parse kv

lemma ptc_idem (parse : String → Option Int) (d : DataFrame) :
    parse_timestamp_cols parse (parse_timestamp_cols parse d)
      = parse_timestamp_cols parse d := by
  have hne : "start:timestamp" ≠ "time:timestamp" := by decide
  rw [ptc_eq parse d]
  by_cases h1 : "start:timestamp" ∈ d.cols <;>
    by_cases h2 : "time:timestamp" ∈ d.cols
  · rw [if_pos h2, if_pos h1]
    rw [ptc_eq]
    rw [mapCol_cols, mapCol_cols]
    rw [if_pos h2, if_pos h1]
    rw [mapCol_tdc_comm _ _ _ hne, mapCol_tdc_idem, mapCol_tdc_idem]
  · rw [if_neg h2, if_pos h1]
    rw [ptc_eq]
    rw [mapCol_cols]
    rw [if_neg h2, if_pos h1]
    rw [mapCol_tdc_idem]
  · rw [if_pos h2, if_neg h1]
    rw [ptc_eq]
    rw [mapCol_cols]
    rw [if_pos h2, if_neg h1]
    rw [mapCol_tdc_idem]
  · rw [if_neg h2, if_neg h1]
    rw [ptc_eq]
    rw [if_neg h2, if_neg h1]

/-! ### Helper lemmas: the lifecycle conversion runs at most once -/

lemma cac_eq (cl : DataFrame → DataFrame) (parse : String → Option Int) (df : DataFrame) :
    convert_and_clean cl parse df =
      parse_timestamp_cols parse
        (if "lifecycle:transition" ∈ df.cols then
          (cl df).renameCols [("START", "start:timestamp"), ("END", "time:timestamp")]
         else df) := rfl

lemma renameKey_eq_lifecycle (c0 : String)
    (h : renameKey [("START", "start:timestamp"), ("END", "time:timestamp")] c0
      = "lifecycle:transition") : c0 = "lifecycle:transition" := by
  unfold renameKey at h
  by_cases h1 : c0 = "START"
  · subst h1
    simp [List.lookup] at h
  · by_cases h2 : c0 = "END"
    · subst h2
      simp [List.lookup] at h
    · have hb1 : (c0 == "START") = false := beq_eq_false_iff_ne.mpr h1
      have hb2 : (c0 == "END") = false := beq_eq_false_iff_ne.mpr h2
      simp [List.lookup, hb1, hb2] at h
      exact h

lemma cac_no_lifecycle (cl : DataFrame → DataFrame) (parse : String → Option Int)
    (df : DataFrame)
    (hcl : "lifecycle:transition" ∈ df.cols → "lifecycle:transition" ∉ (cl df).cols) :
    "lifecycle:transition" ∉ (convert_and_clean cl parse df).cols := by
  rw [cac_eq, ptc_cols]
  by_cases h : "lifecycle:transition" ∈ df.cols
  · rw [if_pos h]
    intro hmem
    rcases List.mem_map.mp hmem with ⟨c0, hc0, hrn⟩
    exact hcl h ((renameKey_eq_lifecycle c0 hrn) ▸ hc0)
  · rw [if_neg h]
    exact h

/-! ### Claims -/

/-- C1, counterexample: on a zero-row log with the default columns,
`cf_entropy_seq` does not fail — it returns entropy `0`. The claimed
division-by-zero cannot occur because the frequency table of an empty
population is empty, so the per-symbol division is never executed and the
entropy of the empty probability vector is the empty sum. -/
theorem C1_counterexample :
    cf_entropy_seq ⟨["concept:name", "case:concept:name"], []⟩ true
      "concept:name" "case:concept:name" false = .ok (0, none) := by
  simpa using cf_entropy_seq_empty ⟨["concept:name", "case:concept:name"], []⟩ true
    "concept:name" "case:concept:name" false rfl

/-- C1, amended: for every input log table with zero rows, `cf_entropy_seq`
does not fail; it returns entropy `0` (and sequence count `0` when
requested), because no division is executed on the empty population. -/
theorem C1_zero_rows_returns_zero (df : DataFrame) (pfx : Bool) (act cid : String)
    (rsc : Bool) (h : df.rows = []) :
    cf_entropy_seq df pfx act cid rsc = .ok (0, if rsc then some 0 else none) :=
  cf_entropy_seq_empty df pfx act cid rsc h

/-- C1, witness for the amended claim at a concrete zero-row table. -/
theorem C1_zero_rows_returns_zero_witness :
    (DataFrame.mk ["a"] []).rows = [] ∧
    cf_entropy_seq ⟨["a"], []⟩ false "x" "y" true = .ok (0, some 0) := by
  refine ⟨rfl, ?_⟩
  simpa using C1_zero_rows_returns_zero ⟨["a"], []⟩ false "x" "y" true rfl

/-- C10: a zero-row log never produces an error from `cf_entropy_seq` —
in particular no missing-column `KeyError` — whatever the configured
column names are, because the row loop performs no lookup on an empty
table. A lookup failure therefore requires at least one row. -/
theorem C10_empty_log_no_error (df : DataFrame) (pfx : Bool) (act cid : String)
    (rsc : Bool) (h : df.rows = []) :
    ∀ e, cf_entropy_seq df pfx act cid rsc ≠ .error e := by
  intro e
  rw [cf_entropy_seq_empty df pfx act cid rsc h]
  exact fun hcontra => Except.noConfusion hcontra

/-- C10, witness: a concrete zero-row table lacking both configured columns
does not raise the `KeyError` for the case-identifier column. -/
theorem C10_empty_log_no_error_witness :
    (DataFrame.mk ["foo"] []).rows = [] ∧
    cf_entropy_seq ⟨["foo"], []⟩ true "concept:name" "case:concept:name" false
      ≠ .error "KeyError: case:concept:name" :=
  ⟨rfl, C10_empty_log_no_error ⟨["foo"], []⟩ true "concept:name" "case:concept:name"
    false rfl _⟩

/-- C2, counterexample: a zero-row log lacking the requested
`nonexistent_col` activity column does not raise a lookup failure —
`cf_entropy_seq` succeeds with entropy `0`, because no row is ever
scanned. The claim's unrestricted quantification over log tables fails on
zero-row tables. -/
theorem C2_counterexample :
    "nonexistent_col" ∉ (DataFrame.mk ["foo"] []).cols ∧
    cf_entropy_seq ⟨["foo"], []⟩ true "nonexistent_col" "case:concept:name" false
      = .ok (0, none) := by
  refine ⟨by decide, ?_⟩
  simpa using cf_entropy_seq_empty ⟨["foo"], []⟩ true "nonexistent_col"
    "case:concept:name" false rfl

/-- C2, amended: for every well-formed log table with AT LEAST ONE ROW that
lacks the configured activity or case-identifier column, `cf_entropy_seq`
raises a `KeyError` immediately (on the first row; the case-identifier
column is looked up first), and the error is not recovered locally — the
whole call returns it. -/
theorem C2_missing_column_raises (df : DataFrame) (pfx : Bool) (act cid : String)
    (rsc : Bool) (hwf : df.WF) (hne : df.rows ≠ [])
    (hmiss : act ∉ df.cols ∨ cid ∉ df.cols) :
    cf_entropy_seq df pfx act cid rsc
      = .error ("KeyError: " ++ (if cid ∈ df.cols then act else cid)) := by
  obtain ⟨r, rest, hrows⟩ : ∃ r rest, df.rows = r :: rest := by
    cases hr : df.rows with
    | nil => exact absurd hr hne
    | cons a t => exact ⟨a, t, rfl⟩
  have hkeys : r.map Prod.fst = df.cols := hwf r (by rw [hrows]; exact List.mem_cons_self r rest)
  by_cases hcid : cid ∈ df.cols
  · have hact : act ∉ df.cols := by
      rcases hmiss with h | h
      · exact h
      · exact absurd hcid h
    rw [if_pos hcid]
    apply cf_entropy_seq_error
    rw [hrows]
    apply buildCases_cons_error
    apply pairOfRow_act_missing
    · rw [hkeys]
      exact hcid
    · rw [hkeys]
      exact hact
  · rw [if_neg hcid]
    apply cf_entropy_seq_error
    rw [hrows]
    apply buildCases_cons_error
    apply pairOfRow_cid_missing
    rw [hkeys]
    exact hcid

/-- C2, witness for the amended claim: a one-row log carrying only the
case-identifier column, queried with `activity_name = "nonexistent_col"`,
raises the `KeyError` for that column. -/
theorem C2_missing_column_raises_witness :
    (DataFrame.mk ["case:concept:name"] [[("case:concept:name", Value.str "A")]]).WF ∧
    (DataFrame.mk ["case:concept:name"] [[("case:concept:name", Value.str "A")]]).rows ≠ [] ∧
    cf_entropy_seq ⟨["case:concept:name"], [[("case:concept:name", Value.str "A")]]⟩ true
      "nonexistent_col" "case:concept:name" false
      = .error ("KeyError: " ++
          (if "case:concept:name" ∈ (DataFrame.mk ["case:concept:name"]
              [[("case:concept:name", Value.str "A")]]).cols
           then "nonexistent_col" else "case:concept:name")) := by
  refine ⟨by decide, by decide, ?_⟩
  exact C2_missing_column_raises _ true _ _ false (by decide) (by decide)
    (Or.inl (by decide))

/-- C5: `get_all_prefixes` emits, for each source sequence in input order,
its prefixes of lengths `1..L` contiguously in increasing-length order, so
the result is the concatenation of the per-sequence prefix blocks and its
total length is the sum of the input lengths. -/
theorem C5_get_all_prefixes_spec (seqs : List (List Value)) :
    get_all_prefixes seqs
      = (seqs.map (fun s => (List.range s.length).map (fun i => s.take (i + 1)))).flatten
    ∧ (get_all_prefixes seqs).length = (seqs.map List.length).sum :=
  ⟨get_all_prefixes_eq seqs, get_all_prefixes_length seqs⟩

/-- C3: over a population of `k` equiprobable distinct symbols (every
symbol occurring the same number of times), `compute_entropy` returns
`log10 k`, the maximum entropy for that alphabet size. -/
theorem C3_equiprobable_entropy (seqs : List (List Value)) (k m : ℕ)
    (hk : 0 < k)
    (hcard : seqs.flatten.toFinset.card = k)
    (hcount : ∀ x ∈ seqs.flatten, List.count x seqs.flatten = m) :
    compute_entropy seqs = .ok (Real.logb 10 k) :=
  compute_entropy_equiprob seqs k m hk hcard hcount

/-- C3, witness: the two-case log with traces `[x, x, x]` and `[y, y, y]`
gives combined population `{x : 3, y : 3}` and trace-level entropy
`log10 2` — which is strictly positive, not `0`. -/
theorem C3_equiprobable_entropy_witness :
    (0 < 2 ∧
      [[Value.str "x", Value.str "x", Value.str "x"],
       [Value.str "y", Value.str "y", Value.str "y"]].flatten.toFinset.card = 2 ∧
      (∀ x ∈ [[Value.str "x", Value.str "x", Value.str "x"],
              [Value.str "y", Value.str "y", Value.str "y"]].flatten,
        List.count x [[Value.str "x", Value.str "x", Value.str "x"],
                      [Value.str "y", Value.str "y", Value.str "y"]].flatten = 3)) ∧
    compute_entropy [[Value.str "x", Value.str "x", Value.str "x"],
                     [Value.str "y", Value.str "y", Value.str "y"]]
      = .ok (Real.logb 10 2) ∧
    (0 : ℝ) < Real.logb 10 2 := by
  refine ⟨⟨by decide, by decide, by decide⟩, ?_, ?_⟩
  · simpa using C3_equiprobable_entropy
      [[Value.str "x", Value.str "x", Value.str "x"],
       [Value.str "y", Value.str "y", Value.str "y"]] 2 3
      (by decide) (by decide) (by decide)
  · exact Real.logb_pos (by norm_num) (by norm_num)

/-- C4: when the flattened symbol population has exactly one distinct
symbol, `compute_entropy` returns `0`. -/
theorem C4_single_symbol_entropy_zero (seqs : List (List Value))
    (hone : seqs.flatten.toFinset.card = 1) :
    compute_entropy seqs = .ok 0 := by
  obtain ⟨a, ha⟩ := Finset.card_eq_one.mp hone
  have hall : ∀ x ∈ seqs.flatten, x = a := by
    intro x hx
    have : x ∈ seqs.flatten.toFinset := List.mem_toFinset.mpr hx
    rw [ha] at this
    exact Finset.mem_singleton.mp this
  have hcount : ∀ x ∈ seqs.flatten, List.count x seqs.flatten = seqs.flatten.length := by
    intro x hx
    rw [List.count_eq_length]
    intro b hb
    rw [hall x hx, hall b hb]
  have := compute_entropy_equiprob seqs 1 seqs.flatten.length (by decide) hone hcount
  simpa using this

/-- C4, witness: a population of five copies of one symbol has entropy 0. -/
theorem C4_single_symbol_entropy_zero_witness :
    ([[Value.str "a", Value.str "a"], [Value.str "a", Value.str "a"],
      [Value.str "a"]] : List (List Value)).flatten.toFinset.card = 1 ∧
    compute_entropy [[Value.str "a", Value.str "a"], [Value.str "a", Value.str "a"],
      [Value.str "a"]] = .ok 0 :=
  ⟨by decide, C4_single_symbol_entropy_zero _ (by decide)⟩

/-- C6: on a non-empty log whose per-row column lookups succeed,
`cf_entropy_seq` with `return_sequence_count` set returns as second
component the number of distinct case identifiers when `pfx = false`,
and the total row count (the sum of per-case trace lengths) when
`pfx = true`. -/
theorem C6_sequence_count (log : DataFrame) (pfx : Bool) (act cid : String)
    (_hne : log.rows ≠ []) (ps : List (Value × Value))
    (hp : rowPairs log.rows cid act = .ok ps) :
    ∃ e, cf_entropy_seq log pfx act cid true
      = .ok (e, some (if pfx then log.rows.length
                      else (ps.map Prod.fst).toFinset.card)) := by
  have hs := cfSequences_of_pairs log pfx act cid ps hp
  have hlen : (if pfx then get_all_prefixes ((buildCasesPure ps).map Prod.snd)
      else (buildCasesPure ps).map Prod.snd).length
      = (if pfx then log.rows.length else (ps.map Prod.fst).toFinset.card) := by
    cases pfx
    · simpa using cases_length ps
    · show (get_all_prefixes ((buildCasesPure ps).map Prod.snd)).length = log.rows.length
      rw [get_all_prefixes_length, traces_sum_length]
      exact mapM_ok_length _ log.rows ps hp
  have heq := cf_entropy_seq_of_sequences log pfx act cid _ hs
  rw [hlen] at heq
  exact ⟨_, heq⟩

/-- C6, witness at a three-row log with two cases (`A`, `B`), queried with
`pfx = false`: the sequence count is the number of distinct case
identifiers, 2. -/
theorem C6_sequence_count_witness :
    (DataFrame.mk ["c", "a"]
      [[("c", Value.str "A"), ("a", Value.str "x")],
       [("c", Value.str "B"), ("a", Value.str "y")],
       [("c", Value.str "A"), ("a", Value.str "y")]]).rows ≠ [] ∧
    rowPairs (DataFrame.mk ["c", "a"]
      [[("c", Value.str "A"), ("a", Value.str "x")],
       [("c", Value.str "B"), ("a", Value.str "y")],
       [("c", Value.str "A"), ("a", Value.str "y")]]).rows "c" "a"
      = .ok [(Value.str "A", Value.str "x"), (Value.str "B", Value.str "y"),
             (Value.str "A", Value.str "y")] ∧
    ∃ e, cf_entropy_seq (DataFrame.mk ["c", "a"]
      [[("c", Value.str "A"), ("a", Value.str "x")],
       [("c", Value.str "B"), ("a", Value.str "y")],
       [("c", Value.str "A"), ("a", Value.str "y")]]) false "a" "c" true
      = .ok (e, some 2) := by
  refine ⟨by decide, rfl, ?_⟩
  obtain ⟨e, he⟩ := C6_sequence_count (DataFrame.mk ["c", "a"]
      [[("c", Value.str "A"), ("a", Value.str "x")],
       [("c", Value.str "B"), ("a", Value.str "y")],
       [("c", Value.str "A"), ("a", Value.str "y")]]) false "a" "c" (by decide)
      [(Value.str "A", Value.str "x"), (Value.str "B", Value.str "y"),
       (Value.str "A", Value.str "y")] rfl
  refine ⟨e, ?_⟩
  rw [he]
  have h2 : (([(Value.str "A", Value.str "x"), (Value.str "B", Value.str "y"),
      (Value.str "A", Value.str "y")].map Prod.fst).toFinset.card) = 2 := by decide
  simp [h2]

/-- C7: the per-case mapping built by the row scan of `cf_entropy_seq`
lists the case identifiers in the insertion order of their first
encounter, and maps each to the activities of that case's rows in the
order the rows are encountered scanning the table top to bottom. -/
theorem C7_case_mapping_invariant (log : DataFrame) (act cid : String)
    (ps : List (Value × Value)) (cs : List (Value × List Value))
    (hp : rowPairs log.rows cid act = .ok ps)
    (hb : buildCases log.rows cid act = .ok cs) :
    cs = (firstSeen (ps.map Prod.fst)).map (fun k => (k, caseTrace ps k)) := by
  rw [buildCases_map, hp, except_map_ok] at hb
  injection hb with hb
  rw [← hb]
  exact buildCasesPure_closed ps

/-- C7, witness at a three-row log: case `A` (rows 1 and 3) then case `B`
(row 2), each trace in encounter order. -/
theorem C7_case_mapping_invariant_witness :
    rowPairs [[("c", Value.str "A"), ("a", Value.str "x")],
       [("c", Value.str "B"), ("a", Value.str "y")],
       [("c", Value.str "A"), ("a", Value.str "y")]] "c" "a"
      = .ok [(Value.str "A", Value.str "x"), (Value.str "B", Value.str "y"),
             (Value.str "A", Value.str "y")] ∧
    buildCases [[("c", Value.str "A"), ("a", Value.str "x")],
       [("c", Value.str "B"), ("a", Value.str "y")],
       [("c", Value.str "A"), ("a", Value.str "y")]] "c" "a"
      = .ok [(Value.str "A", [Value.str "x", Value.str "y"]),
             (Value.str "B", [Value.str "y"])] ∧
    [(Value.str "A", [Value.str "x", Value.str "y"]), (Value.str "B", [Value.str "y"])]
      = (firstSeen ([(Value.str "A", Value.str "x"), (Value.str "B", Value.str "y"),
          (Value.str "A", Value.str "y")].map Prod.fst)).map
        (fun k => (k, caseTrace [(Value.str "A", Value.str "x"),
          (Value.str "B", Value.str "y"), (Value.str "A", Value.str "y")] k)) := by
  refine ⟨rfl, rfl, ?_⟩
  exact C7_case_mapping_invariant
    (DataFrame.mk ["c", "a"]
      [[("c", Value.str "A"), ("a", Value.str "x")],
       [("c", Value.str "B"), ("a", Value.str "y")],
       [("c", Value.str "A"), ("a", Value.str "y")]]) "a" "c"
    [(Value.str "A", Value.str "x"), (Value.str "B", Value.str "y"),
     (Value.str "A", Value.str "y")]
    [(Value.str "A", [Value.str "x", Value.str "y"]), (Value.str "B", [Value.str "y"])]
    rfl rfl

/-- C8: after `convert_and_clean`, every cell of a present
`start:timestamp` or `time:timestamp` column is a parsed date-time or the
missing marker — never a raw unparsed string — and no individual value can
make the coercion raise (the embedding of `pd.to_datetime(...,
errors='coerce')` is a total function). Quantified over any collaborator
`cl` and any parse grammar; the collaborator's output is only assumed to
be a well-formed table. -/
theorem C8_timestamps_parsed (cl : DataFrame → DataFrame) (parse : String → Option Int)
    (df : DataFrame) (hwf : df.WF)
    (hclwf : "lifecycle:transition" ∈ df.cols → (cl df).WF) :
    ∀ r ∈ (convert_and_clean cl parse df).rows, ∀ kv ∈ r,
      (kv.1 = "start:timestamp" ∨ kv.1 = "time:timestamp") →
        parsedOrMissing kv.2 = true := by
  rw [cac_eq]
  apply ptc_parsed
  by_cases h : "lifecycle:transition" ∈ df.cols
  · rw [if_pos h]
    exact renameCols_WF _ _ (hclwf h)
  · rw [if_neg h]
    exact hwf

/-- C8, witness: a one-row table whose `start:timestamp` holds an
unparseable string comes out of `convert_and_clean` with the missing
marker in that cell, and no error was raised. -/
theorem C8_timestamps_parsed_witness :
    (DataFrame.mk ["start:timestamp"] [[("start:timestamp", Value.str "not a date")]]).WF ∧
    parsedOrMissing Value.missing = true := by
  refine ⟨by decide, ?_⟩
  exact C8_timestamps_parsed (fun d => d) (fun _ => none)
    (DataFrame.mk ["start:timestamp"] [[("start:timestamp", Value.str "not a date")]])
    (by decide) (by decide)
    [("start:timestamp", Value.missing)] (by decide)
    ("start:timestamp", Value.missing) (by decide) (Or.inl rfl)

/-- C9: `convert_and_clean` is idempotent on its own output: as long as the
lifecycle-to-interval collaborator's output carries no
`lifecycle:transition` column (it produces an interval-form table), a
second pass re-parses already-parsed timestamp columns without changing
them and performs no second lifecycle conversion. -/
theorem C9_convert_and_clean_idempotent (cl : DataFrame → DataFrame)
    (parse : String → Option Int) (df : DataFrame)
    (hcl : "lifecycle:transition" ∈ df.cols →
      "lifecycle:transition" ∉ (cl df).cols) :
    convert_and_clean cl parse (convert_and_clean cl parse df)
      = convert_and_clean cl parse df := by
  have h1 : "lifecycle:transition" ∉ (convert_and_clean cl parse df).cols :=
    cac_no_lifecycle cl parse df hcl
  rw [cac_eq cl parse (convert_and_clean cl parse df), if_neg h1, cac_eq cl parse df]
  exact ptc_idem parse _

/-- C9, witness: a concrete table with a raw string timestamp, run through
`convert_and_clean` twice with a collaborator producing an empty interval
table, is unchanged by the second pass. -/
theorem C9_convert_and_clean_idempotent_witness :
    ("lifecycle:transition" ∈ (DataFrame.mk ["start:timestamp", "b"]
        [[("start:timestamp", Value.str "garbled"), ("b", Value.int 7)]]).cols →
      "lifecycle:transition" ∉ ((fun _ : DataFrame => DataFrame.mk [] [])
        (DataFrame.mk ["start:timestamp", "b"]
          [[("start:timestamp", Value.str "garbled"), ("b", Value.int 7)]])).cols) ∧
    convert_and_clean (fun _ => DataFrame.mk [] []) (fun _ => none)
      (convert_and_clean (fun _ => DataFrame.mk [] []) (fun _ => none)
        (DataFrame.mk ["start:timestamp", "b"]
          [[("start:timestamp", Value.str "garbled"), ("b", Value.int 7)]]))
      = convert_and_clean (fun _ => DataFrame.mk [] []) (fun _ => none)
        (DataFrame.mk ["start:timestamp", "b"]
          [[("start:timestamp", Value.str "garbled"), ("b", Value.int 7)]]) := by
  refine ⟨by decide, ?_⟩
  exact C9_convert_and_clean_idempotent (fun _ => DataFrame.mk [] []) (fun _ => none)
    (DataFrame.mk ["start:timestamp", "b"]
      [[("start:timestamp", Value.str "garbled"), ("b", Value.int 7)]])
    (by decide)
